import Mathlib

/-!
Verification of the temporal gap-filling kernel `interpolate_numba` from the
notebook `1D_interpolation.ipynb` (Python 2.7 kernel, numba nopython mode).

Embedding notes.
* A 3-D numpy integer volume `arr` indexed as `arr[z, y, x]` (time, row,
  column) is modelled by `Arr3`: the three extents `T = arr.shape[0]`,
  `R = arr.shape[1]`, `C = arr.shape[2]`, the bit width of the dtype
  (`width`, e.g. 64 for the int64 volumes the notebook builds with
  `np.random.randint`), and a total function giving the sample at each
  coordinate.  Samples are mathematical integers; this is exact for every
  value an int64 volume can hold.
* The source allocates `result = np.zeros_like(arr, dtype=np.int16)` and
  stores `int(new_value)` into it.  A store into an int16 array truncates to
  the low 16 bits (two-complement wrap-around); this is `toInt16`.  Cells the
  triple loop never writes keep the `zeros_like` value 0, hence the bounds
  guard in `interpolate_numba`.
* Under the Python 2.7 kernel recorded in the notebook metadata, `/` on
  integers is floor division, so `(left + right) / 2` is `Int.fdiv _ 2`, and
  the subsequent `int(...)` is the identity on an integer value.
* `newValue` is the body of the innermost loop: the nested conditionals that
  compute `new_value` for one time position of one trace, reading only the
  original input array.  `newValueReads` is the same decision tree
  instrumented to also return, in order, the list of time indices the source
  reads from `arr` on that path (`value`, then `left`/`right`, then
  `more_left`/`more_right` as the branches demand).
-/

/-- A 3-D integer volume: time extent `T`, row extent `R`, column extent `C`,
bit width of the integer dtype, and the sample at each (time, row, column)
coordinate. -/
structure Arr3 where
  T : ℕ
  R : ℕ
  C : ℕ
  width : ℕ
  data : ℤ → ℕ → ℕ → ℤ

/-- The trace (1-D time series) of a volume at a fixed (row, column). -/
def trace (arr : Arr3) (y x : ℕ) : ℤ → ℤ :=
  fun z => arr.data z y x

/-- Truncating store into a signed 16-bit cell: reduce modulo 2^16 into
[-32768, 32767], exactly the wrap-around a numpy int16 assignment performs. -/
def toInt16 (v : ℤ) : ℤ :=
  (v + 32768) % 65536 - 32768

/-- The value lies in the signed 16-bit range. -/
def inInt16 (v : ℤ) : Prop :=
  -32768 ≤ v ∧ v ≤ 32767

instance (v : ℤ) : Decidable (inInt16 v) := by
  unfold inInt16; infer_instance

/-- Body of the innermost loop of `interpolate_numba`: the `new_value`
computed for time position `z` of a trace `t` of time extent `T`, with
sentinel `no_data`.  Direct transcription of the nested conditionals of the
source; `Int.fdiv _ 2` is Python 2 integer `/ 2` (floor division). -/
def newValue (t : ℤ → ℤ) (T z no_data : ℤ) : ℤ :=
  let value := t z
  if z = 0 then value
  else if z = T - 1 then value
  else if value = no_data then
    let left := t (z - 1)
    let right := t (z + 1)
    if left ≠ no_data ∧ right ≠ no_data then Int.fdiv (left + right) 2
    else if left = no_data ∧ z = 1 then value
    else if right = no_data ∧ z = T - 2 then value
    else if left = no_data ∧ right ≠ no_data then
      if t (z - 2) = no_data then value else Int.fdiv (t (z - 2) + right) 2
    else if left ≠ no_data ∧ right = no_data then
      if t (z + 2) = no_data then value else Int.fdiv (t (z + 2) + left) 2
    else if left = no_data ∧ right = no_data then
      if t (z - 2) ≠ no_data ∧ t (z + 2) ≠ no_data then
        Int.fdiv (t (z - 2) + t (z + 2)) 2
      else value
    else value
  else value

/-- The decision tree of `newValue` instrumented with the list of time
indices the source reads from the input array on the taken path, in program
order: `value = arr[z]` first; on the interpolation path `left = arr[z-1]`
and `right = arr[z+1]`; then `more_left = arr[z-2]` and/or
`more_right = arr[z+2]` exactly in the branches that assign them. -/
def newValueReads (t : ℤ → ℤ) (T z no_data : ℤ) : ℤ × List ℤ :=
  let value := t z
  if z = 0 then (value, [z])
  else if z = T - 1 then (value, [z])
  else if value = no_data then
    let left := t (z - 1)
    let right := t (z + 1)
    if left ≠ no_data ∧ right ≠ no_data then
      (Int.fdiv (left + right) 2, [z, z - 1, z + 1])
    else if left = no_data ∧ z = 1 then (value, [z, z - 1, z + 1])
    else if right = no_data ∧ z = T - 2 then (value, [z, z - 1, z + 1])
    else if left = no_data ∧ right ≠ no_data then
      if t (z - 2) = no_data then (value, [z, z - 1, z + 1, z - 2])
      else (Int.fdiv (t (z - 2) + right) 2, [z, z - 1, z + 1, z - 2])
    else if left ≠ no_data ∧ right = no_data then
      if t (z + 2) = no_data then (value, [z, z - 1, z + 1, z + 2])
      else (Int.fdiv (t (z + 2) + left) 2, [z, z - 1, z + 1, z + 2])
    else if left = no_data ∧ right = no_data then
      if t (z - 2) ≠ no_data ∧ t (z + 2) ≠ no_data then
        (Int.fdiv (t (z - 2) + t (z + 2)) 2, [z, z - 1, z + 1, z - 2, z + 2])
      else (value, [z, z - 1, z + 1, z - 2, z + 2])
    else (value, [z, z - 1, z + 1])
  else (value, [z])

/-- The whole-volume kernel `interpolate_numba(arr, no_data)`: a new volume
of the same shape, dtype int16 (`np.zeros_like(arr, dtype=np.int16)`), whose
in-range cells hold the int16 store of the per-position `new_value` and whose
out-of-range cells keep the `zeros_like` fill 0.  The notebook calls it with
`no_data = -32768`. -/
def interpolate_numba (arr : Arr3) (no_data : ℤ) : Arr3 :=
  { T := arr.T
    R := arr.R
    C := arr.C
    width := 16
    data := fun z y x =>
      if 0 ≤ z ∧ z < (arr.T : ℤ) ∧ y < arr.R ∧ x < arr.C then
        toInt16 (newValue (trace arr y x) (arr.T : ℤ) z no_data)
      else 0 }

/-- The worked example volume of the spec: a single trace
[5, -32768, 7, -32768, -32768, 9, -32768] of length T = 7, held in an int64
volume as in the notebook. -/
def exSpec : Arr3 :=
  { T := 7, R := 1, C := 1, width := 64
    data := fun z _ _ => [5, -32768, 7, -32768, -32768, 9, -32768].getD z.toNat 0 }

/-- A volume with time extent 2 (below the 3 samples the spec demands): a
single int64 trace [5, 7]. -/
def exT2 : Arr3 :=
  { T := 2, R := 1, C := 1, width := 64
    data := fun z _ _ => [5, 7].getD z.toNat 0 }

/-- An int64 volume holding the trace [40000, 0, 0]; 40000 is a perfectly
valid int64 observation but lies outside the signed 16-bit range. -/
def exWide : Arr3 :=
  { T := 3, R := 1, C := 1, width := 64
    data := fun z _ _ => [40000, 0, 0].getD z.toNat 0 }

/-- An int64 volume holding the trace [0, -32768, -3]: an isolated gap whose
neighbour sum 0 + (-3) = -3 is negative and odd. -/
def exNeg : Arr3 :=
  { T := 3, R := 1, C := 1, width := 64
    data := fun z _ _ => [0, -32768, -3].getD z.toNat 0 }

/-- A two-trace volume: trace (0,0) is the spec example trace, trace (1,0)
is all zeros. -/
def exPairA : Arr3 :=
  { T := 7, R := 2, C := 1, width := 64
    data := fun z y _ =>
      if y = 0 then [5, -32768, 7, -32768, -32768, 9, -32768].getD z.toNat 0
      else 0 }

/-- A two-trace volume: trace (0,0) is the spec example trace, trace (1,0)
is all sentinels.  It agrees with `exPairA` exactly on trace (0,0). -/
def exPairB : Arr3 :=
  { T := 7, R := 2, C := 1, width := 64
    data := fun z y _ =>
      if y = 0 then [5, -32768, 7, -32768, -32768, 9, -32768].getD z.toNat 0
      else -32768 }

/-- An int64 volume holding the trace [-32768, -32768, 1, -32768, -32768]:
double sentinel runs at both ends. -/
def exDouble : Arr3 :=
  { T := 5, R := 1, C := 1, width := 64
    data := fun z _ _ => [-32768, -32768, 1, -32768, -32768].getD z.toNat 0 }

/-- An int64 volume holding the trace [4, -32768, -32768, -32768, 10, 0]: a
run of exactly three sentinels at positions 1, 2, 3 bracketed by the valid
values 4 and 10. -/
def exRun3 : Arr3 :=
  { T := 6, R := 1, C := 1, width := 64
    data := fun z _ _ => [4, -32768, -32768, -32768, 10, 0].getD z.toNat 0 }

/-- C1: on the spec worked example, the fill returns exactly
[5, 6, 7, 8, 8, 9, -32768]: position 0 copied as boundary, position 1 filled
with (5+7)/2 = 6, position 2 kept, position 3 filled via the 2-hop right
neighbour as (7+9)/2 = 8, position 4 filled via the 2-hop left neighbour as
(7+9)/2 = 8, position 5 kept, position 6 kept as the sentinel (last
sample). -/
theorem c1_worked_example :
    (interpolate_numba exSpec (-32768)).data 0 0 0 = 5 ∧
    (interpolate_numba exSpec (-32768)).data 1 0 0 = 6 ∧
    (interpolate_numba exSpec (-32768)).data 2 0 0 = 7 ∧
    (interpolate_numba exSpec (-32768)).data 3 0 0 = 8 ∧
    (interpolate_numba exSpec (-32768)).data 4 0 0 = 8 ∧
    (interpolate_numba exSpec (-32768)).data 5 0 0 = 9 ∧
    (interpolate_numba exSpec (-32768)).data 6 0 0 = -32768 := by
  decide

lemma inInt16_toInt16 (v : ℤ) : inInt16 (toInt16 v) := by
  unfold inInt16 toInt16
  omega

lemma toInt16_of_inInt16 {v : ℤ} (h : inInt16 v) : toInt16 v = v := by
  unfold inInt16 at h
  unfold toInt16
  omega

lemma fdiv_two_eq_ediv (a : ℤ) : Int.fdiv a 2 = a / 2 :=
  Int.fdiv_eq_ediv a (by omega)

lemma inInt16_avg {a b : ℤ} (ha : inInt16 a) (hb : inInt16 b) :
    inInt16 (Int.fdiv (a + b) 2) := by
  unfold inInt16 at *
  rw [fdiv_two_eq_ediv]
  omega

lemma newValue_boundary_left {t : ℤ → ℤ} {T z no_data : ℤ} (h : z = 0) :
    newValue t T z no_data = t z := by
  unfold newValue
  simp [h]

lemma newValue_boundary_right {t : ℤ → ℤ} {T z no_data : ℤ} (h : z = T - 1) :
    newValue t T z no_data = t z := by
  unfold newValue
  by_cases h0 : z = 0
  · rw [if_pos h0]
  · rw [if_neg h0, if_pos h]

lemma newValue_keep_valid {t : ℤ → ℤ} {T z no_data : ℤ}
    (h0 : z ≠ 0) (h1 : z ≠ T - 1) (hv : t z ≠ no_data) :
    newValue t T z no_data = t z := by
  unfold newValue
  rw [if_neg h0, if_neg h1, if_neg hv]

lemma newValue_avg {t : ℤ → ℤ} {T z no_data : ℤ}
    (h0 : z ≠ 0) (h1 : z ≠ T - 1) (hv : t z = no_data)
    (hl : t (z - 1) ≠ no_data) (hr : t (z + 1) ≠ no_data) :
    newValue t T z no_data = Int.fdiv (t (z - 1) + t (z + 1)) 2 := by
  unfold newValue
  rw [if_neg h0, if_neg h1, if_pos hv, if_pos ⟨hl, hr⟩]

lemma newValue_left_edge {t : ℤ → ℤ} {T z no_data : ℤ}
    (h0 : z ≠ 0) (h1 : z ≠ T - 1) (hv : t z = no_data)
    (hl : t (z - 1) = no_data) (hz : z = 1) :
    newValue t T z no_data = t z := by
  unfold newValue
  rw [if_neg h0, if_neg h1, if_pos hv, if_neg (fun h => h.1 hl), if_pos ⟨hl, hz⟩]

lemma newValue_right_edge {t : ℤ → ℤ} {T z no_data : ℤ}
    (h0 : z ≠ 0) (h1 : z ≠ T - 1) (hv : t z = no_data)
    (hr : t (z + 1) = no_data) (hz : z = T - 2) :
    newValue t T z no_data = t z := by
  unfold newValue
  by_cases hc : t (z - 1) = no_data ∧ z = 1
  · rw [if_neg h0, if_neg h1, if_pos hv, if_neg (fun h => h.2 hr), if_pos hc]
  · rw [if_neg h0, if_neg h1, if_pos hv, if_neg (fun h => h.2 hr), if_neg hc,
      if_pos ⟨hr, hz⟩]

lemma newValue_two_left {t : ℤ → ℤ} {T z no_data : ℤ}
    (h0 : z ≠ 0) (h1 : z ≠ T - 1) (hv : t z = no_data)
    (hl : t (z - 1) = no_data) (hr : t (z + 1) ≠ no_data) (hz : z ≠ 1) :
    newValue t T z no_data =
      if t (z - 2) = no_data then t z else Int.fdiv (t (z - 2) + t (z + 1)) 2 := by
  unfold newValue
  rw [if_neg h0, if_neg h1, if_pos hv, if_neg (fun h => h.1 hl),
    if_neg (fun h => hz h.2), if_neg (fun h => hr h.1), if_pos ⟨hl, hr⟩]

lemma newValue_two_right {t : ℤ → ℤ} {T z no_data : ℤ}
    (h0 : z ≠ 0) (h1 : z ≠ T - 1) (hv : t z = no_data)
    (hl : t (z - 1) ≠ no_data) (hr : t (z + 1) = no_data) (hz : z ≠ T - 2) :
    newValue t T z no_data =
      if t (z + 2) = no_data then t z else Int.fdiv (t (z + 2) + t (z - 1)) 2 := by
  unfold newValue
  rw [if_neg h0, if_neg h1, if_pos hv, if_neg (fun h => h.2 hr),
    if_neg (fun h => hl h.1), if_neg (fun h => hz h.2), if_neg (fun h => hl h.1),
    if_pos ⟨hl, hr⟩]

lemma newValue_two_both {t : ℤ → ℤ} {T z no_data : ℤ}
    (h0 : z ≠ 0) (h1 : z ≠ T - 1) (hv : t z = no_data)
    (hl : t (z - 1) = no_data) (hr : t (z + 1) = no_data)
    (hz1 : z ≠ 1) (hz2 : z ≠ T - 2) :
    newValue t T z no_data =
      if t (z - 2) ≠ no_data ∧ t (z + 2) ≠ no_data then
        Int.fdiv (t (z - 2) + t (z + 2)) 2
      else t z := by
  unfold newValue
  rw [if_neg h0, if_neg h1, if_pos hv, if_neg (fun h => h.1 hl),
    if_neg (fun h => hz1 h.2), if_neg (fun h => hz2 h.2), if_neg (fun h => h.2 hr),
    if_neg (fun h => h.1 hl), if_pos ⟨hl, hr⟩]

lemma interpolate_data_eq (arr : Arr3) (no_data : ℤ) {z : ℤ} {y x : ℕ}
    (hz0 : 0 ≤ z) (hzT : z < (arr.T : ℤ)) (hy : y < arr.R) (hx : x < arr.C) :
    (interpolate_numba arr no_data).data z y x =
      toInt16 (newValue (trace arr y x) (arr.T : ℤ) z no_data) := by
  unfold interpolate_numba
  exact if_pos ⟨hz0, hzT, hy, hx⟩

lemma interpolate_data_out (arr : Arr3) (no_data : ℤ) {z : ℤ} {y x : ℕ}
    (hg : ¬(0 ≤ z ∧ z < (arr.T : ℤ) ∧ y < arr.R ∧ x < arr.C)) :
    (interpolate_numba arr no_data).data z y x = 0 := by
  unfold interpolate_numba
  exact if_neg hg

/-- C2 counterexample: on a volume of time extent 2 — below the minimum of 3
the claim says must be rejected — the source performs no shape check at all
and the caller does receive a fully populated output volume of the same
shape (here the int16 copy of the trace [5, 7]). -/
theorem c2_counterexample_small_volume_returns_output :
    (interpolate_numba exT2 (-32768)).T = 2 ∧
    (interpolate_numba exT2 (-32768)).R = 1 ∧
    (interpolate_numba exT2 (-32768)).C = 1 ∧
    (interpolate_numba exT2 (-32768)).data 0 0 0 = 5 ∧
    (interpolate_numba exT2 (-32768)).data 1 0 0 = 7 := by
  decide

/-- C2 amended: for a volume whose time extent is below 3 the operation does
not fail — the source has no shape check and no error path — and instead
returns a volume of the same shape in which every sample is the input sample
stored into int16, because every time position is then a boundary position
(z == 0 or z == T-1) and is copied. -/
theorem c2_small_volume_copies_input (arr : Arr3) (no_data : ℤ) (hT : arr.T < 3) :
    (interpolate_numba arr no_data).T = arr.T ∧
    (interpolate_numba arr no_data).R = arr.R ∧
    (interpolate_numba arr no_data).C = arr.C ∧
    ∀ (z : ℤ) (y x : ℕ), 0 ≤ z → z < (arr.T : ℤ) → y < arr.R → x < arr.C →
      (interpolate_numba arr no_data).data z y x = toInt16 (arr.data z y x) := by
  refine ⟨rfl, rfl, rfl, ?_⟩
  intro z y x hz0 hzT hy hx
  rw [interpolate_data_eq arr no_data hz0 hzT hy hx]
  rcases eq_or_ne z 0 with h0 | h0
  · rw [newValue_boundary_left h0]
    rfl
  · have h1 : z = (arr.T : ℤ) - 1 := by omega
    rw [newValue_boundary_right h1]
    rfl

/-- C2 witness: the amended statement applied to the concrete volume of time
extent 2. -/
theorem c2_small_volume_witness :
    (interpolate_numba exT2 (-32768)).data 1 0 0 = toInt16 (exT2.data 1 0 0) :=
  (c2_small_volume_copies_input exT2 (-32768) (by decide)).2.2.2 1 0 0
    (by decide) (by decide) (by decide) (by decide)

/-- C3 counterexample: the output width is not that of the input.  The input
is an int64 volume (width 64) whose boundary sample 40000 is a valid int64
observation; the kernel allocates the output as int16
(np.zeros_like(arr, dtype=np.int16)), and the boundary copy of 40000 wraps
to -25536, which is impossible for an output of the input integer width
because rule 1 copies boundary samples unchanged. -/
theorem c3_counterexample_width_not_preserved :
    exWide.width = 64 ∧
    (interpolate_numba exWide (-32768)).width = 16 ∧
    exWide.data 0 0 0 = 40000 ∧
    (interpolate_numba exWide (-32768)).data 0 0 0 = -25536 := by
  decide

/-- C3 amended: the fill returns a new volume of identical shape, but its
samples are always signed 16-bit regardless of the input width: every cell
lies in [-32768, 32767] and, within bounds, equals the per-position computed
value reduced modulo 2^16. -/
theorem c3_shape_and_int16_output (arr : Arr3) (no_data : ℤ) :
    (interpolate_numba arr no_data).T = arr.T ∧
    (interpolate_numba arr no_data).R = arr.R ∧
    (interpolate_numba arr no_data).C = arr.C ∧
    (interpolate_numba arr no_data).width = 16 ∧
    ∀ (z : ℤ) (y x : ℕ),
      inInt16 ((interpolate_numba arr no_data).data z y x) ∧
      (0 ≤ z → z < (arr.T : ℤ) → y < arr.R → x < arr.C →
        ((interpolate_numba arr no_data).data z y x -
          newValue (trace arr y x) (arr.T : ℤ) z no_data) % 65536 = 0) := by
  refine ⟨rfl, rfl, rfl, rfl, ?_⟩
  intro z y x
  constructor
  · by_cases hg : 0 ≤ z ∧ z < (arr.T : ℤ) ∧ y < arr.R ∧ x < arr.C
    · rw [interpolate_data_eq arr no_data hg.1 hg.2.1 hg.2.2.1 hg.2.2.2]
      exact inInt16_toInt16 _
    · rw [interpolate_data_out arr no_data hg]
      exact ⟨by norm_num, by norm_num⟩
  · intro hz0 hzT hy hx
    rw [interpolate_data_eq arr no_data hz0 hzT hy hx]
    unfold toInt16
    omega

/-- C3 witness: the amended statement applied at position 3 of the worked
example volume. -/
theorem c3_shape_witness :
    inInt16 ((interpolate_numba exSpec (-32768)).data 3 0 0) ∧
    ((interpolate_numba exSpec (-32768)).data 3 0 0 -
      newValue (trace exSpec 0 0) (exSpec.T : ℤ) 3 (-32768)) % 65536 = 0 :=
  ⟨((c3_shape_and_int16_output exSpec (-32768)).2.2.2.2 3 0 0).1,
   ((c3_shape_and_int16_output exSpec (-32768)).2.2.2.2 3 0 0).2
     (by decide) (by decide) (by decide) (by decide)⟩

/-- C4: for an interior gap whose two immediate neighbours a and b are valid
16-bit observations, the output is floor((a+b)/2): the Python 2 kernel
divides with floor semantics, so this holds also when a+b is negative and
odd; the int16 store is the identity because the floor average of two
in-range values is in range. -/
theorem c4_isolated_gap_floor_average (arr : Arr3) (no_data : ℤ) (y x : ℕ)
    (z : ℤ) (hy : y < arr.R) (hx : x < arr.C)
    (hz0 : 0 < z) (hzT : z < (arr.T : ℤ) - 1)
    (hv : arr.data z y x = no_data)
    (ha : arr.data (z - 1) y x ≠ no_data) (hb : arr.data (z + 1) y x ≠ no_data)
    (ha16 : inInt16 (arr.data (z - 1) y x))
    (hb16 : inInt16 (arr.data (z + 1) y x)) :
    (interpolate_numba arr no_data).data z y x =
      Int.fdiv (arr.data (z - 1) y x + arr.data (z + 1) y x) 2 := by
  rw [interpolate_data_eq arr no_data (by omega) (by omega) hy hx]
  rw [newValue_avg (by omega) (by omega) hv ha hb]
  exact toInt16_of_inInt16 (inInt16_avg ha16 hb16)

/-- C4 witness: trace [0, -32768, -3], gap at z = 1, neighbour sum -3 is
negative and odd; the output is floor(-3 / 2) = -2 (not -1). -/
theorem c4_negative_odd_witness :
    (interpolate_numba exNeg (-32768)).data 1 0 0 = -2 :=
  (c4_isolated_gap_floor_average exNeg (-32768) 0 0 1 (by decide) (by decide)
    (by decide) (by decide) (by decide) (by decide) (by decide) (by decide)
    (by decide)).trans (by decide)

/-- C5: the first and the last sample of every trace are copied through
unchanged, even when they equal the sentinel, for every 16-bit input sample
(the int16 store is then the identity). -/
theorem c5_boundary_invariance (arr : Arr3) (no_data : ℤ) (y x : ℕ)
    (hy : y < arr.R) (hx : x < arr.C) (hT : 1 ≤ arr.T)
    (h0 : inInt16 (arr.data 0 y x))
    (hlast : inInt16 (arr.data ((arr.T : ℤ) - 1) y x)) :
    (interpolate_numba arr no_data).data 0 y x = arr.data 0 y x ∧
    (interpolate_numba arr no_data).data ((arr.T : ℤ) - 1) y x =
      arr.data ((arr.T : ℤ) - 1) y x := by
  constructor
  · rw [interpolate_data_eq arr no_data (by omega) (by omega) hy hx,
      newValue_boundary_left rfl]
    exact toInt16_of_inInt16 h0
  · rw [interpolate_data_eq arr no_data (by omega) (by omega) hy hx,
      newValue_boundary_right rfl]
    exact toInt16_of_inInt16 hlast

/-- C5 witness: on the worked example volume both boundary samples come back
unchanged, the last one being the sentinel itself. -/
theorem c5_boundary_witness :
    (interpolate_numba exSpec (-32768)).data 0 0 0 = exSpec.data 0 0 0 ∧
    (interpolate_numba exSpec (-32768)).data ((exSpec.T : ℤ) - 1) 0 0 =
      exSpec.data ((exSpec.T : ℤ) - 1) 0 0 :=
  c5_boundary_invariance exSpec (-32768) 0 0 (by decide) (by decide)
    (by decide) (by decide) (by decide)

/-- C6: a sample that is not the sentinel is copied through unchanged for
every 16-bit input sample; in particular a sentinel-free in-range trace is
returned unchanged. -/
theorem c6_non_gap_invariance (arr : Arr3) (no_data : ℤ) (y x : ℕ) (z : ℤ)
    (hy : y < arr.R) (hx : x < arr.C) (hz0 : 0 ≤ z) (hzT : z < (arr.T : ℤ))
    (hv : arr.data z y x ≠ no_data) (h16 : inInt16 (arr.data z y x)) :
    (interpolate_numba arr no_data).data z y x = arr.data z y x := by
  rw [interpolate_data_eq arr no_data hz0 hzT hy hx]
  rcases eq_or_ne z 0 with h | h
  · rw [newValue_boundary_left h]
    exact toInt16_of_inInt16 h16
  rcases eq_or_ne z ((arr.T : ℤ) - 1) with h1 | h1
  · rw [newValue_boundary_right h1]
    exact toInt16_of_inInt16 h16
  · rw [newValue_keep_valid h h1 hv]
    exact toInt16_of_inInt16 h16

/-- C6 witness: the valid observation 7 at position 2 of the worked example
comes back unchanged. -/
theorem c6_non_gap_witness :
    (interpolate_numba exSpec (-32768)).data 2 0 0 = exSpec.data 2 0 0 :=
  c6_non_gap_invariance exSpec (-32768) 0 0 2 (by decide) (by decide)
    (by decide) (by decide) (by decide) (by decide)

lemma newValue_congr {t1 t2 : ℤ → ℤ} {T z no_data : ℤ}
    (hz0 : 0 ≤ z) (hzT : z < T)
    (h : ∀ i : ℤ, z - 2 ≤ i → i ≤ z + 2 → 0 ≤ i → i < T → t1 i = t2 i) :
    newValue t1 T z no_data = newValue t2 T z no_data := by
  rcases eq_or_ne z 0 with h0 | h0
  · rw [newValue_boundary_left h0, newValue_boundary_left h0]
    exact h z (by omega) (by omega) hz0 hzT
  rcases eq_or_ne z (T - 1) with h1 | h1
  · rw [newValue_boundary_right h1, newValue_boundary_right h1]
    exact h z (by omega) (by omega) hz0 hzT
  have e0 : t1 z = t2 z := h z (by omega) (by omega) (by omega) (by omega)
  have e1 : t1 (z - 1) = t2 (z - 1) :=
    h (z - 1) (by omega) (by omega) (by omega) (by omega)
  have e2 : t1 (z + 1) = t2 (z + 1) :=
    h (z + 1) (by omega) (by omega) (by omega) (by omega)
  rcases eq_or_ne (t1 z) no_data with hv | hv
  · have hv2 : t2 z = no_data := by rw [← e0]; exact hv
    rcases eq_or_ne (t1 (z - 1)) no_data with hl | hl
    · have hl2 : t2 (z - 1) = no_data := by rw [← e1]; exact hl
      rcases eq_or_ne (t1 (z + 1)) no_data with hr | hr
      · have hr2 : t2 (z + 1) = no_data := by rw [← e2]; exact hr
        rcases eq_or_ne z 1 with hz1 | hz1
        · rw [newValue_left_edge h0 h1 hv hl hz1,
            newValue_left_edge h0 h1 hv2 hl2 hz1]
          exact e0
        rcases eq_or_ne z (T - 2) with hz2 | hz2
        · rw [newValue_right_edge h0 h1 hv hr hz2,
            newValue_right_edge h0 h1 hv2 hr2 hz2]
          exact e0
        · have e3 : t1 (z - 2) = t2 (z - 2) :=
            h (z - 2) (by omega) (by omega) (by omega) (by omega)
          have e4 : t1 (z + 2) = t2 (z + 2) :=
            h (z + 2) (by omega) (by omega) (by omega) (by omega)
          rw [newValue_two_both h0 h1 hv hl hr hz1 hz2,
            newValue_two_both h0 h1 hv2 hl2 hr2 hz1 hz2, e3, e4, e0]
      · have hr2 : t2 (z + 1) ≠ no_data := by rw [← e2]; exact hr
        rcases eq_or_ne z 1 with hz1 | hz1
        · rw [newValue_left_edge h0 h1 hv hl hz1,
            newValue_left_edge h0 h1 hv2 hl2 hz1]
          exact e0
        · have e3 : t1 (z - 2) = t2 (z - 2) :=
            h (z - 2) (by omega) (by omega) (by omega) (by omega)
          rw [newValue_two_left h0 h1 hv hl hr hz1,
            newValue_two_left h0 h1 hv2 hl2 hr2 hz1, e3, e2, e0]
    · have hl2 : t2 (z - 1) ≠ no_data := by rw [← e1]; exact hl
      rcases eq_or_ne (t1 (z + 1)) no_data with hr | hr
      · have hr2 : t2 (z + 1) = no_data := by rw [← e2]; exact hr
        rcases eq_or_ne z (T - 2) with hz2 | hz2
        · rw [newValue_right_edge h0 h1 hv hr hz2,
            newValue_right_edge h0 h1 hv2 hr2 hz2]
          exact e0
        · have e4 : t1 (z + 2) = t2 (z + 2) :=
            h (z + 2) (by omega) (by omega) (by omega) (by omega)
          rw [newValue_two_right h0 h1 hv hl hr hz2,
            newValue_two_right h0 h1 hv2 hl2 hr2 hz2, e4, e1, e0]
      · have hr2 : t2 (z + 1) ≠ no_data := by rw [← e2]; exact hr
        rw [newValue_avg h0 h1 hv hl hr, newValue_avg h0 h1 hv2 hl2 hr2, e1, e2]
  · have hv2 : t2 z ≠ no_data := by rw [← e0]; exact hv
    rw [newValue_keep_valid h0 h1 hv, newValue_keep_valid h0 h1 hv2]
    exact e0

/-- C7: the output sample at (z, y, x) is a function only of the input
samples of the same trace (y, x) at time positions z-2 .. z+2 that exist in
the volume: two same-shaped volumes that agree there produce the same output
at (z, y, x) no matter what all other traces contain.  All lookups of the
kernel read the untouched input (in the embedding the output is built from
the input volume alone), never the partially written output. -/
theorem c7_trace_locality (arr1 arr2 : Arr3) (no_data : ℤ) (y x : ℕ) (z : ℤ)
    (hT : arr1.T = arr2.T) (hR : arr1.R = arr2.R) (hC : arr1.C = arr2.C)
    (h : ∀ i : ℤ, z - 2 ≤ i → i ≤ z + 2 → 0 ≤ i → i < (arr1.T : ℤ) →
      arr1.data i y x = arr2.data i y x) :
    (interpolate_numba arr1 no_data).data z y x =
      (interpolate_numba arr2 no_data).data z y x := by
  by_cases hg : 0 ≤ z ∧ z < (arr1.T : ℤ) ∧ y < arr1.R ∧ x < arr1.C
  · rw [interpolate_data_eq arr1 no_data hg.1 hg.2.1 hg.2.2.1 hg.2.2.2]
    have hg2 : 0 ≤ z ∧ z < (arr2.T : ℤ) ∧ y < arr2.R ∧ x < arr2.C := by
      rw [← hT, ← hR, ← hC]; exact hg
    rw [interpolate_data_eq arr2 no_data hg2.1 hg2.2.1 hg2.2.2.1 hg2.2.2.2]
    have hc := @newValue_congr (trace arr1 y x) (trace arr2 y x) (arr1.T : ℤ) z
      no_data hg.1 hg.2.1 h
    rw [← hT]
    exact congrArg toInt16 hc
  · have hg2 : ¬(0 ≤ z ∧ z < (arr2.T : ℤ) ∧ y < arr2.R ∧ x < arr2.C) := by
      rw [← hT, ← hR, ← hC]; exact hg
    rw [interpolate_data_out arr1 no_data hg, interpolate_data_out arr2 no_data hg2]

/-- C7 witness: the two concrete volumes share trace (0,0) but differ on the
whole trace (1,0) (all zeros versus all sentinels); the output at (3,0,0) is
identical. -/
theorem c7_trace_locality_witness :
    (interpolate_numba exPairA (-32768)).data 3 0 0 =
      (interpolate_numba exPairB (-32768)).data 3 0 0 :=
  c7_trace_locality exPairA exPairB (-32768) 0 0 3 rfl rfl rfl
    (by intro i h1 h2 h3 h4; interval_cases i <;> rfl)

/-- C8: when the sample at z = 1 is a gap and its immediate left neighbour
(position 0) is also the sentinel, the original sentinel value is kept (rule
for z == 1: no room to look two steps left); symmetrically at z = T-2 when
the immediate right neighbour (position T-1) is the sentinel.  In particular
a trace starting [sentinel, sentinel, b, ...] keeps the sentinel at
position 1. -/
theorem c8_unresolvable_edge_gap (arr : Arr3) (no_data : ℤ) (y x : ℕ)
    (hy : y < arr.R) (hx : x < arr.C) (hT : 2 ≤ arr.T) (hnd : inInt16 no_data) :
    (arr.data 0 y x = no_data → arr.data 1 y x = no_data →
      (interpolate_numba arr no_data).data 1 y x = no_data) ∧
    (arr.data ((arr.T : ℤ) - 1) y x = no_data →
      arr.data ((arr.T : ℤ) - 2) y x = no_data →
      (interpolate_numba arr no_data).data ((arr.T : ℤ) - 2) y x = no_data) := by
  constructor
  · intro h0 h1
    rw [interpolate_data_eq arr no_data (by omega) (by omega) hy hx]
    have hval : newValue (trace arr y x) (arr.T : ℤ) 1 no_data =
        trace arr y x 1 := by
      rcases eq_or_ne (1 : ℤ) ((arr.T : ℤ) - 1) with hT1 | hT1
      · exact newValue_boundary_right hT1
      · exact newValue_left_edge (by omega) hT1 h1 h0 rfl
    rw [hval, show trace arr y x 1 = no_data from h1]
    exact toInt16_of_inInt16 hnd
  · intro ha hb
    rw [interpolate_data_eq arr no_data (by omega) (by omega) hy hx]
    have hval : newValue (trace arr y x) (arr.T : ℤ) ((arr.T : ℤ) - 2) no_data =
        trace arr y x ((arr.T : ℤ) - 2) := by
      rcases eq_or_ne ((arr.T : ℤ) - 2) 0 with h0 | h0
      · exact newValue_boundary_left h0
      · have hr : trace arr y x ((arr.T : ℤ) - 2 + 1) = no_data := by
          rw [show (arr.T : ℤ) - 2 + 1 = (arr.T : ℤ) - 1 by ring]; exact ha
        exact newValue_right_edge h0 (by omega) hb hr rfl
    rw [hval, show trace arr y x ((arr.T : ℤ) - 2) = no_data from hb]
    exact toInt16_of_inInt16 hnd

/-- C8 witness: on the trace [-32768, -32768, 1, -32768, -32768] both the
position z = 1 (double gap at the left edge) and the position z = T-2 = 3
(double gap at the right edge) keep the sentinel. -/
theorem c8_unresolvable_edge_gap_witness :
    (interpolate_numba exDouble (-32768)).data 1 0 0 = -32768 ∧
    (interpolate_numba exDouble (-32768)).data 3 0 0 = -32768 :=
  ⟨(c8_unresolvable_edge_gap exDouble (-32768) 0 0 (by decide) (by decide)
      (by decide) (by decide)).1 (by decide) (by decide),
   (c8_unresolvable_edge_gap exDouble (-32768) 0 0 (by decide) (by decide)
      (by decide) (by decide)).2 (by decide) (by decide)⟩

/-- C9: a run of exactly three interior sentinels at z, z+1, z+2 bracketed
by valid 16-bit values a at z-1 and b at z+3 is filled only in the middle:
position z+1 gets floor((a+b)/2) through the 2-hop lookups on both sides,
while positions z and z+2 keep the sentinel because their single-sided 2-hop
neighbour is itself a sentinel. -/
theorem c9_three_gap_middle_fill (arr : Arr3) (no_data : ℤ) (y x : ℕ) (z : ℤ)
    (hy : y < arr.R) (hx : x < arr.C)
    (hz1 : 1 ≤ z) (hz2 : z + 2 ≤ (arr.T : ℤ) - 2)
    (ha : arr.data (z - 1) y x ≠ no_data)
    (hga : arr.data z y x = no_data)
    (hgb : arr.data (z + 1) y x = no_data)
    (hgc : arr.data (z + 2) y x = no_data)
    (hb : arr.data (z + 3) y x ≠ no_data)
    (hnd : inInt16 no_data)
    (ha16 : inInt16 (arr.data (z - 1) y x))
    (hb16 : inInt16 (arr.data (z + 3) y x)) :
    (interpolate_numba arr no_data).data (z + 1) y x =
      Int.fdiv (arr.data (z - 1) y x + arr.data (z + 3) y x) 2 ∧
    (interpolate_numba arr no_data).data z y x = no_data ∧
    (interpolate_numba arr no_data).data (z + 2) y x = no_data := by
  refine ⟨?_, ?_, ?_⟩
  · rw [interpolate_data_eq arr no_data (by omega) (by omega) hy hx]
    have hl : trace arr y x (z + 1 - 1) = no_data := by
      rw [show z + 1 - 1 = z by ring]; exact hga
    have hr : trace arr y x (z + 1 + 1) = no_data := by
      rw [show z + 1 + 1 = z + 2 by ring]; exact hgc
    rw [newValue_two_both (by omega) (by omega) hgb hl hr (by omega) (by omega)]
    rw [show z + 1 - 2 = z - 1 by ring, show z + 1 + 2 = z + 3 by ring]
    rw [if_pos ⟨ha, hb⟩]
    exact toInt16_of_inInt16 (inInt16_avg ha16 hb16)
  · rw [interpolate_data_eq arr no_data (by omega) (by omega) hy hx]
    rw [newValue_two_right (by omega) (by omega) hga ha hgb (by omega)]
    rw [if_pos (show trace arr y x (z + 2) = no_data from hgc)]
    rw [show trace arr y x z = no_data from hga]
    exact toInt16_of_inInt16 hnd
  · rw [interpolate_data_eq arr no_data (by omega) (by omega) hy hx]
    have hl : trace arr y x (z + 2 - 1) = no_data := by
      rw [show z + 2 - 1 = z + 1 by ring]; exact hgb
    have hr : trace arr y x (z + 2 + 1) ≠ no_data := by
      rw [show z + 2 + 1 = z + 3 by ring]; exact hb
    rw [newValue_two_left (by omega) (by omega) hgc hl hr (by omega)]
    rw [show z + 2 - 2 = z by ring]
    rw [if_pos (show trace arr y x z = no_data from hga)]
    rw [show trace arr y x (z + 2) = no_data from hgc]
    exact toInt16_of_inInt16 hnd

/-- C9 witness: on the trace [4, -32768, -32768, -32768, 10, 0] the middle
gap position 2 becomes floor((4+10)/2) = 7 while positions 1 and 3 keep the
sentinel. -/
theorem c9_three_gap_witness :
    (interpolate_numba exRun3 (-32768)).data 2 0 0 = 7 ∧
    (interpolate_numba exRun3 (-32768)).data 1 0 0 = -32768 ∧
    (interpolate_numba exRun3 (-32768)).data 3 0 0 = -32768 := by
  have h := c9_three_gap_middle_fill exRun3 (-32768) 0 0 1 (by decide) (by decide)
    (by decide) (by decide) (by decide) (by decide) (by decide) (by decide)
    (by decide) (by decide) (by decide) (by decide)
  exact ⟨h.1.trans (by decide), h.2.1, h.2.2⟩

lemma reads_z0 {t : ℤ → ℤ} {T z no_data : ℤ} (h : z = 0) :
    (newValueReads t T z no_data).2 = [z] := by
  unfold newValueReads
  rw [if_pos h]

lemma reads_zT1 {t : ℤ → ℤ} {T z no_data : ℤ} (h0 : z ≠ 0) (h : z = T - 1) :
    (newValueReads t T z no_data).2 = [z] := by
  unfold newValueReads
  rw [if_neg h0, if_pos h]

lemma reads_valid {t : ℤ → ℤ} {T z no_data : ℤ}
    (h0 : z ≠ 0) (h1 : z ≠ T - 1) (hv : t z ≠ no_data) :
    (newValueReads t T z no_data).2 = [z] := by
  unfold newValueReads
  rw [if_neg h0, if_neg h1, if_neg hv]

lemma reads_avg {t : ℤ → ℤ} {T z no_data : ℤ}
    (h0 : z ≠ 0) (h1 : z ≠ T - 1) (hv : t z = no_data)
    (hl : t (z - 1) ≠ no_data) (hr : t (z + 1) ≠ no_data) :
    (newValueReads t T z no_data).2 = [z, z - 1, z + 1] := by
  unfold newValueReads
  rw [if_neg h0, if_neg h1, if_pos hv, if_pos ⟨hl, hr⟩]

lemma reads_left_edge {t : ℤ → ℤ} {T z no_data : ℤ}
    (h0 : z ≠ 0) (h1 : z ≠ T - 1) (hv : t z = no_data)
    (hl : t (z - 1) = no_data) (hz : z = 1) :
    (newValueReads t T z no_data).2 = [z, z - 1, z + 1] := by
  unfold newValueReads
  rw [if_neg h0, if_neg h1, if_pos hv, if_neg (fun h => h.1 hl), if_pos ⟨hl, hz⟩]

lemma reads_right_edge {t : ℤ → ℤ} {T z no_data : ℤ}
    (h0 : z ≠ 0) (h1 : z ≠ T - 1) (hv : t z = no_data)
    (hr : t (z + 1) = no_data) (hz : z = T - 2) :
    (newValueReads t T z no_data).2 = [z, z - 1, z + 1] := by
  unfold newValueReads
  by_cases hc : t (z - 1) = no_data ∧ z = 1
  · rw [if_neg h0, if_neg h1, if_pos hv, if_neg (fun h => h.2 hr), if_pos hc]
  · rw [if_neg h0, if_neg h1, if_pos hv, if_neg (fun h => h.2 hr), if_neg hc,
      if_pos ⟨hr, hz⟩]

lemma reads_two_left {t : ℤ → ℤ} {T z no_data : ℤ}
    (h0 : z ≠ 0) (h1 : z ≠ T - 1) (hv : t z = no_data)
    (hl : t (z - 1) = no_data) (hr : t (z + 1) ≠ no_data) (hz : z ≠ 1) :
    (newValueReads t T z no_data).2 = [z, z - 1, z + 1, z - 2] := by
  unfold newValueReads
  rw [if_neg h0, if_neg h1, if_pos hv, if_neg (fun h => h.1 hl),
    if_neg (fun h => hz h.2), if_neg (fun h => hr h.1), if_pos ⟨hl, hr⟩]
  by_cases hc : t (z - 2) = no_data
  · rw [if_pos hc]
  · rw [if_neg hc]

lemma reads_two_right {t : ℤ → ℤ} {T z no_data : ℤ}
    (h0 : z ≠ 0) (h1 : z ≠ T - 1) (hv : t z = no_data)
    (hl : t (z - 1) ≠ no_data) (hr : t (z + 1) = no_data) (hz : z ≠ T - 2) :
    (newValueReads t T z no_data).2 = [z, z - 1, z + 1, z + 2] := by
  unfold newValueReads
  rw [if_neg h0, if_neg h1, if_pos hv, if_neg (fun h => h.2 hr),
    if_neg (fun h => hl h.1), if_neg (fun h => hz h.2), if_neg (fun h => hl h.1),
    if_pos ⟨hl, hr⟩]
  by_cases hc : t (z + 2) = no_data
  · rw [if_pos hc]
  · rw [if_neg hc]

lemma reads_two_both {t : ℤ → ℤ} {T z no_data : ℤ}
    (h0 : z ≠ 0) (h1 : z ≠ T - 1) (hv : t z = no_data)
    (hl : t (z - 1) = no_data) (hr : t (z + 1) = no_data)
    (hz1 : z ≠ 1) (hz2 : z ≠ T - 2) :
    (newValueReads t T z no_data).2 = [z, z - 1, z + 1, z - 2, z + 2] := by
  unfold newValueReads
  rw [if_neg h0, if_neg h1, if_pos hv, if_neg (fun h => h.1 hl),
    if_neg (fun h => hz1 h.2), if_neg (fun h => hz2 h.2), if_neg (fun h => h.2 hr),
    if_neg (fun h => h.1 hl), if_pos ⟨hl, hr⟩]
  by_cases hc : t (z - 2) ≠ no_data ∧ t (z + 2) ≠ no_data
  · rw [if_pos hc]
  · rw [if_neg hc]

/-- C10: on any trace of a volume of time extent at least 3, every time
index the per-sample computation reads is within bounds: all reads lie in
[0, T), the 2-hop left lookup at z-2 happens only when 2 <= z, and the 2-hop
right lookup at z+2 only when z <= T-3 (the z == 1 and z == T-2 guard
branches rule the other cases out). -/
theorem c10_reads_in_bounds (arr : Arr3) (no_data : ℤ) (y x : ℕ) (z : ℤ)
    (hT : 3 ≤ arr.T) (hz0 : 0 ≤ z) (hzT : z < (arr.T : ℤ)) :
    ∀ i ∈ (newValueReads (trace arr y x) (arr.T : ℤ) z no_data).2,
      (0 ≤ i ∧ i < (arr.T : ℤ)) ∧
      (i = z - 2 → 2 ≤ z) ∧ (i = z + 2 → z ≤ (arr.T : ℤ) - 3) := by
  intro i hi
  rcases eq_or_ne z 0 with h0 | h0
  · rw [reads_z0 h0] at hi
    simp only [List.mem_cons, List.not_mem_nil, or_false] at hi
    omega
  rcases eq_or_ne z ((arr.T : ℤ) - 1) with h1 | h1
  · rw [reads_zT1 h0 h1] at hi
    simp only [List.mem_cons, List.not_mem_nil, or_false] at hi
    omega
  rcases eq_or_ne (trace arr y x z) no_data with hv | hv
  swap
  · rw [reads_valid h0 h1 hv] at hi
    simp only [List.mem_cons, List.not_mem_nil, or_false] at hi
    omega
  rcases eq_or_ne (trace arr y x (z - 1)) no_data with hl | hl
  · rcases eq_or_ne z 1 with hz1 | hz1
    · rw [reads_left_edge h0 h1 hv hl hz1] at hi
      simp only [List.mem_cons, List.not_mem_nil, or_false] at hi
      omega
    rcases eq_or_ne (trace arr y x (z + 1)) no_data with hr | hr
    · rcases eq_or_ne z ((arr.T : ℤ) - 2) with hz2 | hz2
      · rw [reads_right_edge h0 h1 hv hr hz2] at hi
        simp only [List.mem_cons, List.not_mem_nil, or_false] at hi
        omega
      · rw [reads_two_both h0 h1 hv hl hr hz1 hz2] at hi
        simp only [List.mem_cons, List.not_mem_nil, or_false] at hi
        omega
    · rw [reads_two_left h0 h1 hv hl hr hz1] at hi
      simp only [List.mem_cons, List.not_mem_nil, or_false] at hi
      omega
  · rcases eq_or_ne (trace arr y x (z + 1)) no_data with hr | hr
    · rcases eq_or_ne z ((arr.T : ℤ) - 2) with hz2 | hz2
      · rw [reads_right_edge h0 h1 hv hr hz2] at hi
        simp only [List.mem_cons, List.not_mem_nil, or_false] at hi
        omega
      · rw [reads_two_right h0 h1 hv hl hr hz2] at hi
        simp only [List.mem_cons, List.not_mem_nil, or_false] at hi
        omega
    · rw [reads_avg h0 h1 hv hl hr] at hi
      simp only [List.mem_cons, List.not_mem_nil, or_false] at hi
      omega

/-- C10 witness: at position z = 3 of the worked example the 2-hop right
lookup index 5 is read; it is in bounds and satisfies both guard
implications. -/
theorem c10_reads_witness :
    (0 ≤ (5 : ℤ) ∧ (5 : ℤ) < (exSpec.T : ℤ)) ∧
    ((5 : ℤ) = 3 - 2 → 2 ≤ (3 : ℤ)) ∧
    ((5 : ℤ) = 3 + 2 → (3 : ℤ) ≤ (exSpec.T : ℤ) - 3) :=
  c10_reads_in_bounds exSpec (-32768) 0 0 3 (by decide) (by decide) (by decide)
    5 (by decide)
